import Mathlib

/-! # Verification of `static/js/main.js`

A shallow embedding of the page helpers of `static/js/main.js` and proofs of
their contracts.  Browser facilities the script calls but does not define
(the locale formatters, `fetch`, the HTML fragment parser, the
`URLSearchParams` constructor) are parameters of the embedded functions; the
parts of the DOM and of the language semantics the script relies on
(`classList`, `startsWith`, `ToBoolean`, object spread, property reads) are
modelled directly, and so is the number formatter of the `zh-CN` locale for
the one call `formatNumber` makes.
-/

namespace MainJs

/-! ## JavaScript values -/

/-- A Number value: `NaN`, an infinity, or the finite value
`(-1)^negative * significand * 2^exponent`.  Both zeros are the finite values
with significand `0`. -/
inductive JSNumber where
  | nan
  | infinity (negative : Bool)
  | finite (negative : Bool) (significand : Nat) (exponent : Int)
deriving Repr, DecidableEq

/-- The Number value of a natural number literal. -/
def JSNumber.ofNat (k : Nat) : JSNumber := .finite false k 0

/-- Whether a Number is neither `NaN` nor an infinity. -/
def JSNumber.isFinite : JSNumber → Bool
  | .finite _ _ _ => true
  | _ => false

/-- The values the helpers can receive: primitives, arrays, plain objects
(an ordered table of own enumerable properties) and `Date` instances
(identified by their time value). -/
inductive JSValue where
  | undefined
  | null
  | bool (b : Bool)
  | number (n : JSNumber)
  | string (s : String)
  | array (items : List JSValue)
  | object (props : List (String × JSValue))
  | date (timeValue : JSNumber)

/-- The own enumerable string-keyed properties of a plain object, in order. -/
abbrev Props := List (String × JSValue)

/-- The abstract operation `ToBoolean`: `undefined`, `null`, `false`, `+0`,
`-0`, `NaN` and the empty string are falsy, every other value is truthy. -/
def toBoolean : JSValue → Bool
  | .undefined => false
  | .null => false
  | .bool b => b
  | .number .nan => false
  | .number (.infinity _) => true
  | .number (.finite _ significand _) => significand != 0
  | .string s => s != ""
  | .array _ => true
  | .object _ => true
  | .date _ => true

/-- What a rejected promise or a `throw` carries. -/
inductive Thrown where
  /-- The value of `new Error(message)`. -/
  | error (message : String)
  /-- The `TypeError` of reading a property of `null` or `undefined`. -/
  | nullMember (property : String)
  /-- A value thrown or rejected by the browser, identified by a description. -/
  | host (description : String)
deriving Repr, DecidableEq

/-- The string method `s.startsWith(searchString)` at position 0: whether the
characters of `searchString` are an initial segment of those of `s`. -/
def startsWith (s searchString : String) : Bool :=
  searchString.data.isPrefixOf s.data

/-! ## Class lists -/

/-- The method `classList.add(token)`: the token is appended unless present. -/
def classListAdd (classList : List String) (token : String) : List String :=
  if token ∈ classList then classList else classList ++ [token]

/-- The method `classList.contains(token)`. -/
def classListContains (classList : List String) (token : String) : Bool :=
  decide (token ∈ classList)

/-! ## Navigation highlighting -/

/-- An anchor of the page header: the value of its `href` attribute (`none`
when the attribute is absent, where `getAttribute` returns `null`) and its
class list. -/
structure Anchor where
  href : Option String
  classList : List String
deriving Repr, DecidableEq

/-- The condition of the `if` in `highlightActiveNavItem`:
`href === currentPath || (href !== '/' && currentPath.startsWith(href))`.
A `null` href is never strictly equal to a string, and `startsWith` converts
it to the string `"null"`. -/
def hrefMatches (currentPath : String) (href : Option String) : Bool :=
  match href with
  | some h => h == currentPath || (h != "/" && startsWith currentPath h)
  | none => startsWith currentPath "null"

/-- The body of the `forEach` callback of `highlightActiveNavItem`. -/
def highlightLink (currentPath : String) (link : Anchor) : Anchor :=
  if hrefMatches currentPath link.href then
    let classList := classListAdd link.classList "active"
    if classListContains classList "nav-link" then
      { link with classList := classListAdd (classListAdd classList "text-white") "fw-bold" }
    else
      { link with classList := classList }
  else
    link

/-- The function `highlightActiveNavItem`: `currentPath` is
`window.location.pathname`, `navLinks` the elements selected by
`document.querySelectorAll('header a')` in document order; the result is the
same elements after the call. -/
def highlightActiveNavItem (currentPath : String) (navLinks : List Anchor) : List Anchor :=
  navLinks.map (highlightLink currentPath)

/-! ## Form validation -/

/-- The methods of a submit event that the listener calls. -/
inductive EventCall where
  | preventDefault
  | stopPropagation
deriving Repr, DecidableEq

/-- A DOM event: its `cancelable` attribute, its canceled and
stop-propagation flags, and the methods called on it so far, oldest first. -/
structure Event where
  cancelable : Bool
  defaultPrevented : Bool
  propagationStopped : Bool
  calls : List EventCall
deriving Repr, DecidableEq

/-- The method `event.preventDefault()`: sets the canceled flag of a
cancelable event. -/
def Event.preventDefault (event : Event) : Event :=
  { event with
    defaultPrevented := event.defaultPrevented || event.cancelable
    calls := event.calls ++ [EventCall.preventDefault] }

/-- The method `event.stopPropagation()`. -/
def Event.stopPropagation (event : Event) : Event :=
  { event with
    propagationStopped := true
    calls := event.calls ++ [EventCall.stopPropagation] }

/-- What a listener sees of a form element: its class list and the result
`form.checkValidity()` has in its present state. -/
structure FormState where
  classList : List String
  checkValidity : Bool
deriving Repr, DecidableEq

/-- A form element with the listeners registered for its `submit` event, in
registration order.  A listener receives the form as it is when the event
fires, and the event. -/
structure Form where
  state : FormState
  submitListeners : List (FormState → Event → FormState × Event)

/-- The arrow function `initFormValidation` registers on a form:
`if (!form.checkValidity()) { event.preventDefault(); event.stopPropagation(); }`
followed by `form.classList.add('was-validated')`. -/
def validationListener (form : FormState) (event : Event) : FormState × Event :=
  let event :=
    if !form.checkValidity then event.preventDefault.stopPropagation else event
  ({ form with classList := classListAdd form.classList "was-validated" }, event)

/-- The method `form.addEventListener('submit', listener, false)` with a
freshly created listener. -/
def Form.addSubmitListener (form : Form)
    (listener : FormState → Event → FormState × Event) : Form :=
  { form with submitListeners := form.submitListeners ++ [listener] }

/-- The function `initFormValidation`: `elements` are the elements of the
document in document order; those selected by `.needs-validation` get the
validation listener. -/
def initFormValidation (elements : List Form) : List Form :=
  elements.map fun form =>
    if classListContains form.state.classList "needs-validation" then
      form.addSubmitListener validationListener
    else
      form

/-! ## The document tree -/

/-- A node of the document: a text node, or an element with its tag, its
attributes and its children in order. -/
inductive DomNode where
  | text (data : String)
  | element (tag : String) (attributes : List (String × String)) (children : List DomNode)

/-- The ID of an element: the value of its `id` attribute when that value is
not empty. -/
def elementIdOf (attributes : List (String × String)) : Option String :=
  match attributes.lookup "id" with
  | some "" => none
  | other => other

/-- The node reached from `node` by descending through the children with the
given indices. -/
def DomNode.nodeAt : DomNode → List Nat → Option DomNode
  | node, [] => some node
  | .text _, _ :: _ => none
  | .element _ _ children, i :: rest =>
    match children[i]? with
    | some child => child.nodeAt rest
    | none => none

/-- A node without its descendants: what identifies it apart from its content. -/
def DomNode.shallow : DomNode → DomNode
  | .text data => .text data
  | .element tag attributes _ => .element tag attributes []

mutual
/-- The first element in tree order, among `node` and its descendants, whose
ID is `id`, as the path leading to it. -/
def findById (id : String) : DomNode → Option (List Nat)
  | .text _ => none
  | .element _ attributes children =>
    if elementIdOf attributes = some id then some [] else findInList id children 0
/-- The search of `findById` through a list of siblings, the first of which
has index `i` under its parent. -/
def findInList (id : String) : List DomNode → Nat → Option (List Nat)
  | [], _ => none
  | child :: rest, i =>
    match findById id child with
    | some path => some (i :: path)
    | none => findInList id rest (i + 1)
end

/-- The method `document.getElementById(elementId)`, where `document` is the
root element of the page: a reference to the element (its path), or `none`
for `null`. -/
def getElementById (document : DomNode) (id : String) : Option (List Nat) :=
  findById id document

/-- The assignment `element.innerHTML = markup` for the element at the path
`element`: its children are replaced by the nodes the HTML fragment parser
makes of the markup in the context of that element. -/
def setInnerHTML (parseFragment : String → String → List DomNode) (markup : String) :
    DomNode → List Nat → DomNode
  | .text data, _ => .text data
  | .element tag attributes _, [] => .element tag attributes (parseFragment tag markup)
  | .element tag attributes children, i :: rest =>
    match children[i]? with
    | some child =>
      .element tag attributes (children.set i (setInnerHTML parseFragment markup child rest))
    | none => .element tag attributes children

/-! ## Loading and error display -/

/-- The template literal of `showLoader` up to `${message}`. -/
def loaderMarkupHead : String :=
  "\n            <div class=\"text-center py-3\">" ++
  "\n                <div class=\"spinner-border text-primary\" role=\"status\">" ++
  "\n                    <span class=\"visually-hidden\">Loading...</span>" ++
  "\n                </div>" ++
  "\n                <p class=\"mt-2\">"

/-- The template literal of `showLoader` after `${message}`. -/
def loaderMarkupTail : String :=
  "</p>" ++
  "\n            </div>" ++
  "\n        "

/-- The template literal of `showError` up to `${message}`. -/
def errorMarkupHead : String :=
  "\n            <div class=\"alert alert-danger\" role=\"alert\">" ++
  "\n                <i class=\"fas fa-exclamation-circle me-2\"></i> "

/-- The template literal of `showError` after `${message}`. -/
def errorMarkupTail : String :=
  "\n            </div>" ++
  "\n        "

/-- The function `showLoader(elementId, message = '加载中...')`; `message` is
`none` when the argument is omitted. -/
def showLoader (parseFragment : String → String → List DomNode) (document : DomNode)
    (elementId : String) (message : Option String) : DomNode :=
  let message := message.getD "加载中..."
  match getElementById document elementId with
  | some element =>
    setInnerHTML parseFragment (loaderMarkupHead ++ message ++ loaderMarkupTail)
      document element
  | none => document

/-- The function `showError(elementId, message)`. -/
def showError (parseFragment : String → String → List DomNode) (document : DomNode)
    (elementId : String) (message : String) : DomNode :=
  match getElementById document elementId with
  | some element =>
    setInnerHTML parseFragment (errorMarkupHead ++ message ++ errorMarkupTail)
      document element
  | none => document

/-! ## Calls into the browser -/

/-- A method call on a value whose methods the browser provides. -/
structure MethodCall where
  receiver : JSValue
  method : String
  arguments : List JSValue

/-- The outcome of a helper together with the browser methods it called, in
call order. -/
structure Traced (α : Type) where
  value : α
  calls : List MethodCall

/-! ## Date and number formatting -/

/-- The function `formatDate(date, format = 'short')`.  `dateParse` gives the
time value of `new Date(string)`, `invoke receiver method arguments` is the
result of the browser method; an `undefined` format stands for an omitted
argument. -/
def formatDate (dateParse : String → JSNumber)
    (invoke : JSValue → String → List JSValue → Except Thrown JSValue)
    (date : JSValue) (format : JSValue) : Traced (Except Thrown JSValue) :=
  let format := match format with
    | .undefined => JSValue.string "short"
    | given => given
  if !toBoolean date then
    ⟨.ok (.string ""), []⟩
  else
    let dateObj := match date with
      | .string text => JSValue.date (dateParse text)
      | other => other
    let call (method : String) (arguments : List JSValue) : Traced (Except Thrown JSValue) :=
      ⟨invoke dateObj method arguments, [⟨dateObj, method, arguments⟩]⟩
    match format with
    | .string "short" => call "toLocaleDateString" [.string "zh-CN"]
    | .string "long" =>
      call "toLocaleDateString" [.string "zh-CN",
        .object [("year", .string "numeric"), ("month", .string "long"),
          ("day", .string "numeric")]]
    | .string "time" =>
      call "toLocaleTimeString" [.string "zh-CN",
        .object [("hour", .string "2-digit"), ("minute", .string "2-digit")]]
    | .string "datetime" => call "toLocaleString" [.string "zh-CN"]
    | _ => call "toLocaleDateString" [.string "zh-CN"]

/-- The options object `formatNumber` passes to `toLocaleString`. -/
def fractionDigitOptions (minimum maximum : JSValue) : JSValue :=
  .object [("minimumFractionDigits", minimum), ("maximumFractionDigits", maximum)]

/-- The function `formatNumber(number, decimals = 0)`; an `undefined`
`decimals` stands for an omitted argument. -/
def formatNumber (invoke : JSValue → String → List JSValue → Except Thrown JSValue)
    (number : JSValue) (decimals : JSValue) : Traced (Except Thrown JSValue) :=
  let decimals := match decimals with
    | .undefined => JSValue.number (JSNumber.ofNat 0)
    | given => given
  match number with
  | .null => ⟨.ok (.string ""), []⟩
  | .undefined => ⟨.ok (.string ""), []⟩
  | number =>
    let arguments := [JSValue.string "zh-CN", fractionDigitOptions decimals decimals]
    ⟨invoke number "toLocaleString" arguments, [⟨number, "toLocaleString", arguments⟩]⟩

/-- The number of characters after the last `.` of a rendering, `0` when it
has none. -/
def fractionDigits (rendering : String) : Nat :=
  let reversed := rendering.data.reverse
  if '.' ∈ reversed then (reversed.takeWhile (fun c => c != '.')).length else 0

/-! ## URL parameters -/

/-- The part of `window.location` the helpers read. -/
structure Location where
  pathname : String
  search : String
deriving Repr, DecidableEq

/-- The method `get(name)` of a `URLSearchParams` object with the given list
of name-value pairs: the value of the first pair named `name`, else `null`. -/
def urlParamsGet (pairs : List (String × String)) (name : String) : Option String :=
  match pairs.find? (fun pair => pair.1 == name) with
  | some pair => some pair.2
  | none => none

/-- The function `getUrlParam(name)` as a step on the page location:
`urlSearchParams` is the constructor `new URLSearchParams(search)`, giving the
list of pairs of the new object.  The result is the returned value and the
location after the call. -/
def getUrlParam (urlSearchParams : String → List (String × String))
    (location : Location) (name : String) : Option String × Location :=
  let urlParams := urlSearchParams location.search
  (urlParamsGet urlParams name, location)

/-- The characters up to the first `sep`, and those after it if there is one. -/
def splitAtFirst (sep : Char) : List Char → List Char × Option (List Char)
  | [] => ([], none)
  | c :: rest =>
    if c = sep then ([], some rest)
    else
      let (before, after) := splitAtFirst sep rest
      (c :: before, after)

/-- The pieces of a character list between occurrences of `sep`; `fuel`
bounds the number of pieces. -/
def splitOnChar (sep : Char) : Nat → List Char → List (List Char)
  | 0, _ => []
  | fuel + 1, chars =>
    match splitAtFirst sep chars with
    | (piece, none) => [piece]
    | (piece, some rest) => piece :: splitOnChar sep fuel rest

/-- A `URLSearchParams` constructor for query strings without escapes: a
leading `?` is dropped, the pairs are the non-empty pieces between `&`, and
each is cut at its first `=`. -/
def plainSearchParams (search : String) : List (String × String) :=
  let chars := match search.data with
    | '?' :: rest => rest
    | all => all
  ((splitOnChar '&' (chars.length + 1) chars).filter (fun piece => !piece.isEmpty)).map
    fun piece =>
      match splitAtFirst '=' piece with
      | (name, some value) => (String.mk name, String.mk value)
      | (name, none) => (String.mk name, "")

/-! ## API requests -/

/-- The own property `key` of a plain object, `none` when it has none. -/
def getOwn (props : Props) (key : String) : Option JSValue :=
  props.lookup key

/-- Definition of the data property `key` with the given value: an existing
property keeps its place and takes the value, a new one comes last. -/
def setOwn : Props → String → JSValue → Props
  | [], key, value => [(key, value)]
  | (k, v) :: rest, key, value =>
    if k = key then (k, value) :: rest else (k, v) :: setOwn rest key value

/-- The spread `...source` into the object literal built so far: every own
property of `source` is defined on it, in order. -/
def spread (target source : Props) : Props :=
  source.foldl (fun acc property => setOwn acc property.1 property.2) target

/-- The `defaultOptions` of `apiRequest`. -/
def defaultOptions : Props :=
  [("headers", .object [("Content-Type", .string "application/json")])]

/-- The `requestOptions` of `apiRequest`: the object literal with
`...defaultOptions` followed by `...options`. -/
def requestOptions (options : Props) : Props :=
  spread (spread [] defaultOptions) options

/-- What `apiRequest` uses of a `Response`: its status and the settlement of
the promise `response.json()`. -/
structure Response where
  status : Nat
  json : Except Thrown JSValue

/-- The getter `response.ok`: whether the status is in the range 200 to 299. -/
def Response.ok (response : Response) : Bool :=
  decide (200 ≤ response.status) && decide (response.status ≤ 299)

/-- The property read `errorData.message`: a `TypeError` on `null` and
`undefined`, the own property of a plain object, and `undefined` on a value
that has no such property. -/
def readMessage : JSValue → Except Thrown JSValue
  | .undefined => .error (.nullMember "message")
  | .null => .error (.nullMember "message")
  | .object props => .ok ((getOwn props "message").getD .undefined)
  | _ => .ok .undefined

/-- The value of `new Error(message)` for a message other than `undefined`:
its message is the string itself, or what `ToString` makes of another value
(`hostToString`, which may throw). -/
def newError (hostToString : JSValue → Except Thrown String) :
    JSValue → Except Thrown Thrown
  | .string text => .ok (.error text)
  | other =>
    match hostToString other with
    | .ok text => .ok (.error text)
    | .error thrown => .error thrown

/-- What `apiRequest` does to the outside: a call of `fetch`, a call of
`console.error`. -/
inductive Effect where
  | fetch (url : String) (options : Props)
  | consoleError (label : String) (error : Thrown)

/-- The function `apiRequest(url, options = {})`, run to the settlement of
its promise: the effects in order, and the value it resolves to or the error
it rejects with.  `fetch url options` is the settlement of the promise
`fetch` returns. -/
def apiRequest (fetch : String → Props → Except Thrown Response)
    (hostToString : JSValue → Except Thrown String)
    (url : String) (options : Props) : List Effect × Except Thrown JSValue :=
  let requestOptions := requestOptions options
  let attempt : Except Thrown JSValue :=
    match fetch url requestOptions with
    | .error thrown => .error thrown
    | .ok response =>
      if !response.ok then
        let errorData := match response.json with
          | .ok data => data
          | .error _ => JSValue.object []
        match readMessage errorData with
        | .error thrown => .error thrown
        | .ok message =>
          let text := if toBoolean message then message
            else JSValue.string ("请求失败: " ++ toString response.status)
          match newError hostToString text with
          | .ok error => .error error
          | .error thrown => .error thrown
      else
        response.json
  match attempt with
  | .ok data => ([.fetch url requestOptions], .ok data)
  | .error error =>
    ([.fetch url requestOptions, .consoleError "API请求出错:" error], .error error)

/-! ## A model of the locale formatter

`Number.prototype.toLocaleString` belongs to the browser.  The definitions of
this section follow ECMA-402 for the call `formatNumber` makes: locale
`zh-CN` (digits `0` to `9`, decimal separator `.`, groups of three separated
by `,`, minus sign `-`), decimal style, rounding mode half-expand, and the two
fraction-digit options given as Numbers. -/

/-- The operation `DefaultNumberOption` on a Number with the bounds 0 and 100
of the fraction-digit options: a `RangeError` for `NaN` and for a value below
0 or above 100, else the floor of the value. -/
def fractionDigitOption : JSNumber → Except Thrown Nat
  | .nan => .error (.host "RangeError")
  | .infinity _ => .error (.host "RangeError")
  | .finite negative significand exponent =>
    if negative && significand != 0 then .error (.host "RangeError")
    else
      match exponent with
      | .ofNat e =>
        if significand * 2 ^ e ≤ 100 then .ok (significand * 2 ^ e)
        else .error (.host "RangeError")
      | .negSucc e =>
        if significand ≤ 100 * 2 ^ (e + 1) then .ok (significand / 2 ^ (e + 1))
        else .error (.host "RangeError")

/-- The integer nearest to `significand * 2^exponent * 10^digits`, the larger
one when two are equally near. -/
def scaledMagnitude (significand : Nat) (exponent : Int) (digits : Nat) : Nat :=
  match exponent with
  | .ofNat e => significand * 2 ^ e * 10 ^ digits
  | .negSucc e => (2 * significand * 10 ^ digits + 2 ^ (e + 1)) / (2 * 2 ^ (e + 1))

/-- The decimal digits of `n`, least significant first; `fuel` bounds their
number. -/
def digitsRev : Nat → Nat → List Char
  | 0, _ => []
  | fuel + 1, n =>
    Nat.digitChar (n % 10) :: (if n / 10 = 0 then [] else digitsRev fuel (n / 10))

/-- The last `width` decimal digits of `n`, least significant first. -/
def fixedDigitsRev : Nat → Nat → List Char
  | 0, _ => []
  | width + 1, n => Nat.digitChar (n % 10) :: fixedDigitsRev width (n / 10)

/-- Integer digits, least significant first, with a `,` after every third
digit that has a digit after it. -/
def groupThousands : List Char → List Char
  | a :: b :: c :: rest =>
    match rest with
    | [] => [a, b, c]
    | _ :: _ => a :: b :: c :: ',' :: groupThousands rest
  | short => short

/-- Removal of at most `cut` zeros from the end of the fraction, whose digits
are given least significant first. -/
def dropZeros : Nat → List Char → List Char
  | cut + 1, '0' :: rest => dropZeros cut rest
  | _, digits => digits

/-- The rendering of the finite number `(-1)^negative * significand *
2^exponent` with at least `minimum` and at most `maximum` fraction digits. -/
def renderFinite (negative : Bool) (significand : Nat) (exponent : Int)
    (minimum maximum : Nat) : String :=
  let n := scaledMagnitude significand exponent maximum
  let integer := n / 10 ^ maximum
  let fractionRev := dropZeros (maximum - minimum) (fixedDigitsRev maximum (n % 10 ^ maximum))
  let integerRev := groupThousands (digitsRev (integer + 1) integer)
  let unsignedRev :=
    if fractionRev.isEmpty then integerRev else fractionRev ++ '.' :: integerRev
  String.mk ((if negative then ['-'] else []) ++ unsignedRev.reverse)

/-- The rendering of a Number in `zh-CN` with the given fraction digits. -/
def renderNumber (n : JSNumber) (minimum maximum : Nat) : String :=
  match n with
  | .nan => "NaN"
  | .infinity false => "∞"
  | .infinity true => "-∞"
  | .finite negative significand exponent =>
    renderFinite negative significand exponent minimum maximum

/-- The method `toLocaleString` of a Number with locale `zh-CN` and Number
values for `minimumFractionDigits` and `maximumFractionDigits`: both options
are checked, a minimum above the maximum is a `RangeError`, and otherwise the
result is the rendering. -/
def numberToLocaleString (n minimumFractionDigits maximumFractionDigits : JSNumber) :
    Except Thrown JSValue :=
  match fractionDigitOption minimumFractionDigits with
  | .error thrown => .error thrown
  | .ok minimum =>
    match fractionDigitOption maximumFractionDigits with
    | .error thrown => .error thrown
    | .ok maximum =>
      if minimum > maximum then .error (.host "RangeError")
      else .ok (.string (renderNumber n minimum maximum))

/-- A browser for the call `formatNumber` makes on a Number with a Number for
`decimals`; it answers no other call (the error `unmodelled`). -/
def referenceInvoke (receiver : JSValue) (method : String) (arguments : List JSValue) :
    Except Thrown JSValue :=
  match receiver, arguments with
  | .number n, [.string locale, .object props] =>
    if method = "toLocaleString" ∧ locale = "zh-CN" then
      match getOwn props "minimumFractionDigits", getOwn props "maximumFractionDigits" with
      | some (.number minimum), some (.number maximum) =>
        numberToLocaleString n minimum maximum
      | _, _ => .error (.host "unmodelled")
    else .error (.host "unmodelled")
  | _, _ => .error (.host "unmodelled")

/-! # Theorems -/

/-! ## Lemmas on class lists -/

theorem mem_classListAdd_self (classList : List String) (token : String) :
    token ∈ classListAdd classList token := by
  unfold classListAdd
  split <;> simp_all

theorem mem_classListAdd_of_mem {classList : List String} {c : String} (token : String)
    (h : c ∈ classList) : c ∈ classListAdd classList token := by
  unfold classListAdd
  split <;> simp_all

theorem mem_classListAdd_iff (classList : List String) (token c : String) :
    c ∈ classListAdd classList token ↔ c ∈ classList ∨ c = token := by
  unfold classListAdd
  split
  · constructor
    · intro h; exact Or.inl h
    · rintro (h | rfl) <;> assumption
  · simp

theorem startsWith_iff (s p : String) : startsWith s p = true ↔ p.data <+: s.data := by
  unfold startsWith
  exact List.isPrefixOf_iff_prefix

theorem highlightActiveNavItem_getElem? (currentPath : String) (navLinks : List Anchor)
    (i : Nat) :
    (highlightActiveNavItem currentPath navLinks)[i]? =
      (navLinks[i]?).map (highlightLink currentPath) := by
  simp [highlightActiveNavItem]

/-! ## Navigation highlighting: contracts -/

/-- C1: every header anchor whose href equals the current path, or whose href
is not the root path and is a prefix of the current path, carries `active`
after `highlightActiveNavItem`, and also `text-white` and `fw-bold` when it
carried `nav-link` before; this holds at every position of the anchor list,
whatever the other anchors are. -/
theorem highlightActiveNavItem_marks_matching (currentPath : String)
    (navLinks : List Anchor) (i : Nat) (link : Anchor) (href : String)
    (hlink : navLinks[i]? = some link) (hhref : link.href = some href)
    (hmatch : href = currentPath ∨ (href ≠ "/" ∧ href.data <+: currentPath.data)) :
    ∃ after, (highlightActiveNavItem currentPath navLinks)[i]? = some after ∧
      after.href = link.href ∧
      "active" ∈ after.classList ∧
      (∀ c, c ∈ link.classList → c ∈ after.classList) ∧
      ("nav-link" ∈ link.classList →
        "text-white" ∈ after.classList ∧ "fw-bold" ∈ after.classList) := by
  have hm : hrefMatches currentPath link.href = true := by
    rw [hhref]
    simp only [hrefMatches, Bool.or_eq_true, Bool.and_eq_true, beq_iff_eq, bne_iff_ne,
      startsWith_iff]
    exact hmatch
  refine ⟨highlightLink currentPath link, ?_, ?_, ?_, ?_, ?_⟩
  · rw [highlightActiveNavItem_getElem?, hlink]; rfl
  · unfold highlightLink; rw [if_pos hm]; dsimp only; split <;> rfl
  · unfold highlightLink; rw [if_pos hm]; dsimp only
    split
    · exact mem_classListAdd_of_mem _ (mem_classListAdd_of_mem _ (mem_classListAdd_self _ _))
    · exact mem_classListAdd_self _ _
  · intro c hc
    unfold highlightLink; rw [if_pos hm]; dsimp only
    split
    · exact mem_classListAdd_of_mem _ (mem_classListAdd_of_mem _ (mem_classListAdd_of_mem _ hc))
    · exact mem_classListAdd_of_mem _ hc
  · intro hnav
    have hc : classListContains (classListAdd link.classList "active") "nav-link" = true := by
      simp only [classListContains, decide_eq_true_eq]
      exact mem_classListAdd_of_mem _ hnav
    unfold highlightLink; rw [if_pos hm]; dsimp only; rw [if_pos hc]
    exact ⟨mem_classListAdd_of_mem _ (mem_classListAdd_self _ _), mem_classListAdd_self _ _⟩

/-- A header with three links, two of which lie on the path `/courses/3`. -/
theorem highlightActiveNavItem_marks_matching_witness :
    ∃ after, (highlightActiveNavItem "/courses/3"
        [⟨some "/", ["nav-link"]⟩, ⟨some "/courses", ["nav-link"]⟩,
          ⟨some "/courses/3", []⟩])[1]? = some after ∧
      after.href = some "/courses" ∧
      "active" ∈ after.classList ∧
      (∀ c, c ∈ ["nav-link"] → c ∈ after.classList) ∧
      ("nav-link" ∈ ["nav-link"] →
        "text-white" ∈ after.classList ∧ "fw-bold" ∈ after.classList) :=
  highlightActiveNavItem_marks_matching "/courses/3"
    [⟨some "/", ["nav-link"]⟩, ⟨some "/courses", ["nav-link"]⟩, ⟨some "/courses/3", []⟩]
    1 ⟨some "/courses", ["nav-link"]⟩ "/courses" rfl rfl
    (Or.inr ⟨by decide, by decide⟩)

/-- C2: a header anchor whose href does not match (it differs from the
current path, and is the root path or is not a prefix of the current path)
has the same href and the same class list after `highlightActiveNavItem` as
before, whether or not it carries `nav-link`; an anchor without href
attribute is left alone whenever the path does not begin with the text
`null`.  In particular an anchor with href `/` is left alone on every path
other than `/`. -/
theorem highlightActiveNavItem_leaves_nonmatching (currentPath : String)
    (navLinks : List Anchor) (i : Nat) (link : Anchor)
    (hlink : navLinks[i]? = some link) :
    ((match link.href with
        | some href => href ≠ currentPath ∧ (href = "/" ∨ ¬ href.data <+: currentPath.data)
        | none => ¬ "null".data <+: currentPath.data) →
      (highlightActiveNavItem currentPath navLinks)[i]? = some link) ∧
    (link.href = some "/" → currentPath ≠ "/" →
      (highlightActiveNavItem currentPath navLinks)[i]? = some link) ∧
    (highlightActiveNavItem currentPath navLinks).length = navLinks.length := by
  have key : hrefMatches currentPath link.href = false →
      (highlightActiveNavItem currentPath navLinks)[i]? = some link := by
    intro hm
    rw [highlightActiveNavItem_getElem?, hlink]
    simp [highlightLink, hm]
  refine ⟨?_, ?_, by simp [highlightActiveNavItem]⟩
  · intro hno
    apply key
    rcases hh : link.href with _ | href
    · rw [hh] at hno
      simp only [hrefMatches]
      rw [Bool.eq_false_iff]
      intro h
      exact hno ((startsWith_iff _ _).1 h)
    · rw [hh] at hno
      obtain ⟨hne, hor⟩ := hno
      simp only [hrefMatches]
      rw [Bool.eq_false_iff]
      intro h
      simp only [Bool.or_eq_true, Bool.and_eq_true, beq_iff_eq, bne_iff_ne, ne_eq,
        startsWith_iff] at h
      rcases h with h | ⟨h1, h2⟩
      · exact hne h
      · rcases hor with hor | hor
        · exact h1 hor
        · exact hor h2
  · intro hroot hpath
    apply key
    rw [hroot]
    simp only [hrefMatches]
    rw [Bool.eq_false_iff]
    intro h
    simp only [Bool.or_eq_true, Bool.and_eq_true, beq_iff_eq, bne_iff_ne, ne_eq,
      startsWith_iff] at h
    rcases h with h | ⟨h1, _⟩
    · exact hpath h.symm
    · exact h1 trivial

/-- On the path `/courses/3` the root link and an unrelated link keep their
class lists, while the link to `/courses` does not. -/
theorem highlightActiveNavItem_leaves_nonmatching_witness :
    (highlightActiveNavItem "/courses/3"
      [⟨some "/", ["nav-link"]⟩, ⟨some "/courses", ["nav-link"]⟩,
        ⟨some "/about", ["nav-link"]⟩])[0]? = some ⟨some "/", ["nav-link"]⟩ ∧
    (highlightActiveNavItem "/courses/3"
      [⟨some "/", ["nav-link"]⟩, ⟨some "/courses", ["nav-link"]⟩,
        ⟨some "/about", ["nav-link"]⟩])[2]? = some ⟨some "/about", ["nav-link"]⟩ ∧
    (highlightActiveNavItem "/courses/3"
      [⟨some "/", ["nav-link"]⟩, ⟨some "/courses", ["nav-link"]⟩,
        ⟨some "/about", ["nav-link"]⟩])[1]? =
      some ⟨some "/courses", ["nav-link", "active", "text-white", "fw-bold"]⟩ :=
  ⟨(highlightActiveNavItem_leaves_nonmatching "/courses/3"
      [⟨some "/", ["nav-link"]⟩, ⟨some "/courses", ["nav-link"]⟩,
        ⟨some "/about", ["nav-link"]⟩]
      0 ⟨some "/", ["nav-link"]⟩ rfl).2.1 rfl (by decide),
    (highlightActiveNavItem_leaves_nonmatching "/courses/3"
      [⟨some "/", ["nav-link"]⟩, ⟨some "/courses", ["nav-link"]⟩,
        ⟨some "/about", ["nav-link"]⟩]
      2 ⟨some "/about", ["nav-link"]⟩ rfl).1 ⟨by decide, Or.inr (by decide)⟩,
    by decide⟩

/-! ## Form validation: contract -/

/-- C3: `initFormValidation` registers the validation listener on every
element that carries `needs-validation`; whenever that listener runs, it
calls `preventDefault` and `stopPropagation` on the event exactly when
`checkValidity()` is false (the event of a valid form is left as it was), and
in both cases the class list of the form contains `was-validated`
afterwards. -/
theorem initFormValidation_listener (elements : List Form) (i : Nat) (form : Form)
    (hform : elements[i]? = some form)
    (hclass : "needs-validation" ∈ form.state.classList) :
    ∃ after, (initFormValidation elements)[i]? = some after ∧
      after.state = form.state ∧
      after.submitListeners = form.submitListeners ++ [validationListener] ∧
      ∀ (state : FormState) (event : Event),
        (validationListener state event).2.calls =
            event.calls ++ (if state.checkValidity then []
              else [EventCall.preventDefault, EventCall.stopPropagation]) ∧
        (state.checkValidity = true → (validationListener state event).2 = event) ∧
        (state.checkValidity = false →
          (validationListener state event).2.propagationStopped = true ∧
          (validationListener state event).2.defaultPrevented =
            (event.defaultPrevented || event.cancelable)) ∧
        "was-validated" ∈ (validationListener state event).1.classList ∧
        (∀ c, c ∈ state.classList → c ∈ (validationListener state event).1.classList) ∧
        (validationListener state event).1.checkValidity = state.checkValidity := by
  have hc : classListContains form.state.classList "needs-validation" = true := by
    simp only [classListContains, decide_eq_true_eq]
    exact hclass
  refine ⟨form.addSubmitListener validationListener, ?_, rfl, rfl, ?_⟩
  · simp [initFormValidation, hform, hc]
  · intro state event
    refine ⟨?_, ?_, ?_, mem_classListAdd_self _ _,
      fun c hcmem => mem_classListAdd_of_mem _ hcmem, rfl⟩
    · cases hv : state.checkValidity <;>
        simp [validationListener, hv, Event.preventDefault, Event.stopPropagation]
    · intro hv
      simp [validationListener, hv]
    · intro hv
      simp [validationListener, hv, Event.preventDefault, Event.stopPropagation]

/-- A page with one invalid form marked for validation. -/
theorem initFormValidation_listener_witness :
    ∃ after, (initFormValidation [⟨⟨["needs-validation"], false⟩, []⟩])[0]? = some after ∧
      after.state = ⟨["needs-validation"], false⟩ ∧
      after.submitListeners = [] ++ [validationListener] ∧
      ∀ (state : FormState) (event : Event),
        (validationListener state event).2.calls =
            event.calls ++ (if state.checkValidity then []
              else [EventCall.preventDefault, EventCall.stopPropagation]) ∧
        (state.checkValidity = true → (validationListener state event).2 = event) ∧
        (state.checkValidity = false →
          (validationListener state event).2.propagationStopped = true ∧
          (validationListener state event).2.defaultPrevented =
            (event.defaultPrevented || event.cancelable)) ∧
        "was-validated" ∈ (validationListener state event).1.classList ∧
        (∀ c, c ∈ state.classList → c ∈ (validationListener state event).1.classList) ∧
        (validationListener state event).1.checkValidity = state.checkValidity :=
  initFormValidation_listener [⟨⟨["needs-validation"], false⟩, []⟩] 0
    ⟨⟨["needs-validation"], false⟩, []⟩ rfl (by decide)

/-! ## Lemmas on the document tree -/

theorem findInList_some (id : String) :
    ∀ (nodes : List DomNode) (i : Nat) (path : List Nat),
      findInList id nodes i = some path →
      ∃ j child rest, path = (i + j) :: rest ∧ nodes[j]? = some child ∧
        findById id child = some rest := by
  intro nodes
  induction nodes with
  | nil => intro i path h; simp [findInList] at h
  | cons child tail ih =>
    intro i path h
    rw [findInList] at h
    cases hc : findById id child with
    | some found =>
      rw [hc] at h
      simp only [Option.some.injEq] at h
      exact ⟨0, child, found, by simp [← h], by simp, hc⟩
    | none =>
      rw [hc] at h
      obtain ⟨j, c, rest, hp, hj, hf⟩ := ih (i + 1) path h
      exact ⟨j + 1, c, rest, by rw [hp]; congr 1; omega, by simpa using hj, hf⟩

theorem findInList_ne_none (id : String) :
    ∀ (nodes : List DomNode) (i j : Nat) (child : DomNode),
      nodes[j]? = some child → findById id child ≠ none → findInList id nodes i ≠ none := by
  intro nodes
  induction nodes with
  | nil => intro i j child h; simp at h
  | cons head tail ih =>
    intro i j child hj hne
    rw [findInList]
    cases hh : findById id head with
    | some found => simp
    | none =>
      cases j with
      | zero =>
        simp only [List.getElem?_cons_zero, Option.some.injEq] at hj
        rw [hj] at hh
        exact absurd hh hne
      | succ k =>
        simp only [List.getElem?_cons_succ] at hj
        exact ih (i + 1) k child hj hne

/-- The path `getElementById` returns leads to an element with the ID asked for. -/
theorem findById_sound (id : String) :
    ∀ (path : List Nat) (node : DomNode), findById id node = some path →
      ∃ tag attributes children,
        node.nodeAt path = some (.element tag attributes children) ∧
        elementIdOf attributes = some id := by
  intro path
  induction path with
  | nil =>
    intro node h
    cases node with
    | text data => simp [findById] at h
    | element tag attributes children =>
      rw [findById] at h
      by_cases hid : elementIdOf attributes = some id
      · exact ⟨tag, attributes, children, rfl, hid⟩
      · rw [if_neg hid] at h
        obtain ⟨j, c, rest, hp, _, _⟩ := findInList_some id children 0 [] h
        simp at hp
  | cons i rest ih =>
    intro node h
    cases node with
    | text data => simp [findById] at h
    | element tag attributes children =>
      rw [findById] at h
      by_cases hid : elementIdOf attributes = some id
      · rw [if_pos hid] at h; simp at h
      · rw [if_neg hid] at h
        obtain ⟨j, c, rest2, hp, hj, hf⟩ := findInList_some id children 0 (i :: rest) h
        simp only [Nat.zero_add, List.cons.injEq] at hp
        obtain ⟨hi, hr⟩ := hp
        subst hi hr
        obtain ⟨t, a, k, hn, hid2⟩ := ih c hf
        exact ⟨t, a, k, by simp [DomNode.nodeAt, hj, hn], hid2⟩

/-- When some element of the tree has the ID asked for, `getElementById`
finds an element. -/
theorem findById_complete (id : String) :
    ∀ (path : List Nat) (node : DomNode) (tag : String)
      (attributes : List (String × String)) (children : List DomNode),
      node.nodeAt path = some (.element tag attributes children) →
      elementIdOf attributes = some id → findById id node ≠ none := by
  intro path
  induction path with
  | nil =>
    intro node tag attributes children hn hid
    simp only [DomNode.nodeAt, Option.some.injEq] at hn
    subst hn
    simp [findById, hid]
  | cons i rest ih =>
    intro node tag attributes children hn hid
    cases node with
    | text data => simp [DomNode.nodeAt] at hn
    | element t a kids =>
      rw [DomNode.nodeAt] at hn
      cases hk : kids[i]? with
      | none => rw [hk] at hn; simp at hn
      | some child =>
        rw [hk] at hn
        rw [findById]
        split
        · simp
        · exact findInList_ne_none id kids 0 i child hk (ih child tag attributes children hn hid)

/-- After `innerHTML` is assigned, the element keeps its tag and attributes
and its children are the parsed markup. -/
theorem setInnerHTML_target (parseFragment : String → String → List DomNode)
    (markup : String) :
    ∀ (target : List Nat) (node : DomNode) (tag : String)
      (attributes : List (String × String)) (children : List DomNode),
      node.nodeAt target = some (.element tag attributes children) →
      (setInnerHTML parseFragment markup node target).nodeAt target =
        some (.element tag attributes (parseFragment tag markup)) := by
  intro target
  induction target with
  | nil =>
    intro node tag attributes children hn
    simp only [DomNode.nodeAt, Option.some.injEq] at hn
    subst hn
    simp [setInnerHTML, DomNode.nodeAt]
  | cons i rest ih =>
    intro node tag attributes children hn
    cases node with
    | text data => simp [DomNode.nodeAt] at hn
    | element t a kids =>
      rw [DomNode.nodeAt] at hn
      cases hk : kids[i]? with
      | none => rw [hk] at hn; simp at hn
      | some child =>
        rw [hk] at hn
        have hlt : i < kids.length := by
          rcases Nat.lt_or_ge i kids.length with h | h
          · exact h
          · rw [List.getElem?_eq_none h] at hk; simp at hk
        simp only [setInnerHTML, hk, DomNode.nodeAt, List.getElem?_set_self hlt]
        exact ih child tag attributes children hn

/-- Assigning `innerHTML` leaves every subtree that neither contains the
element nor lies inside it as it was. -/
theorem setInnerHTML_elsewhere (parseFragment : String → String → List DomNode)
    (markup : String) :
    ∀ (target : List Nat) (node : DomNode) (path : List Nat),
      ¬ target <+: path → ¬ path <+: target →
      (setInnerHTML parseFragment markup node target).nodeAt path = node.nodeAt path := by
  intro target
  induction target with
  | nil => intro node path h; exact absurd (List.nil_prefix) h
  | cons i rest ih =>
    intro node path h1 h2
    cases path with
    | nil => exact absurd (List.nil_prefix) h2
    | cons j more =>
      cases node with
      | text data => simp [setInnerHTML]
      | element t a kids =>
        cases hk : kids[i]? with
        | none => simp [setInnerHTML, hk]
        | some child =>
          simp only [setInnerHTML, hk, DomNode.nodeAt]
          by_cases hij : i = j
          · subst hij
            have hlt : i < kids.length := by
              rcases Nat.lt_or_ge i kids.length with h | h
              · exact h
              · rw [List.getElem?_eq_none h] at hk; simp at hk
            rw [List.getElem?_set_self hlt, hk]
            apply ih child more
            · intro hp; exact h1 (List.cons_prefix_cons.2 ⟨rfl, hp⟩)
            · intro hp; exact h2 (List.cons_prefix_cons.2 ⟨rfl, hp⟩)
          · rw [List.getElem?_set_ne hij]

/-- Assigning `innerHTML` keeps the element and each of its ancestors in
place, with their tags and attributes. -/
theorem setInnerHTML_ancestors (parseFragment : String → String → List DomNode)
    (markup : String) :
    ∀ (target : List Nat) (node : DomNode) (path : List Nat),
      path <+: target →
      ((setInnerHTML parseFragment markup node target).nodeAt path).map DomNode.shallow =
        (node.nodeAt path).map DomNode.shallow := by
  intro target
  induction target with
  | nil =>
    intro node path h
    have hp : path = [] := List.prefix_nil.1 h
    subst hp
    cases node <;> simp [setInnerHTML, DomNode.nodeAt, DomNode.shallow]
  | cons i rest ih =>
    intro node path h
    cases path with
    | nil =>
      cases node with
      | text data => simp [setInnerHTML, DomNode.nodeAt, DomNode.shallow]
      | element t a kids =>
        cases hk : kids[i]? <;> simp [setInnerHTML, hk, DomNode.nodeAt, DomNode.shallow]
    | cons j more =>
      obtain ⟨hij, hp⟩ := List.cons_prefix_cons.1 h
      subst hij
      cases node with
      | text data => simp [setInnerHTML]
      | element t a kids =>
        cases hk : kids[j]? with
        | none => simp [setInnerHTML, hk]
        | some child =>
          have hlt : j < kids.length := by
            rcases Nat.lt_or_ge j kids.length with h | h
            · exact h
            · rw [List.getElem?_eq_none h] at hk; simp at hk
          simp only [setInnerHTML, hk, DomNode.nodeAt, List.getElem?_set_self hlt]
          exact ih child more hp

/-! ## Loading and error display: contract -/

/-- C10: when no element of the document has the ID `elementId`, `showLoader`
and `showError` return the document unchanged, whatever the message.  When
such an element exists, the element `getElementById` selects keeps its tag and
attributes, its children become the parse of the template with the message
spliced in verbatim, every ancestor keeps its tag and attributes, and every
subtree outside the element is identical to what it was. -/
theorem showLoader_showError_frame (parseFragment : String → String → List DomNode)
    (document : DomNode) (elementId : String) (message : String) :
    ((∀ path tag attributes children,
        document.nodeAt path = some (.element tag attributes children) →
        elementIdOf attributes ≠ some elementId) →
      showLoader parseFragment document elementId (some message) = document ∧
      showLoader parseFragment document elementId none = document ∧
      showError parseFragment document elementId message = document) ∧
    showLoader parseFragment document elementId none =
      showLoader parseFragment document elementId (some "加载中...") ∧
    ((∃ path tag attributes children,
        document.nodeAt path = some (.element tag attributes children) ∧
        elementIdOf attributes = some elementId) →
      ∃ target tag attributes children,
        getElementById document elementId = some target ∧
        document.nodeAt target = some (.element tag attributes children) ∧
        elementIdOf attributes = some elementId ∧
        (showLoader parseFragment document elementId (some message)).nodeAt target =
          some (.element tag attributes
            (parseFragment tag (loaderMarkupHead ++ message ++ loaderMarkupTail))) ∧
        (showError parseFragment document elementId message).nodeAt target =
          some (.element tag attributes
            (parseFragment tag (errorMarkupHead ++ message ++ errorMarkupTail))) ∧
        message.data <:+: (loaderMarkupHead ++ message ++ loaderMarkupTail).data ∧
        message.data <:+: (errorMarkupHead ++ message ++ errorMarkupTail).data ∧
        (∀ path, ¬ target <+: path → ¬ path <+: target →
          (showLoader parseFragment document elementId (some message)).nodeAt path =
            document.nodeAt path ∧
          (showError parseFragment document elementId message).nodeAt path =
            document.nodeAt path) ∧
        (∀ path, path <+: target →
          ((showLoader parseFragment document elementId (some message)).nodeAt path).map
              DomNode.shallow = (document.nodeAt path).map DomNode.shallow ∧
          ((showError parseFragment document elementId message).nodeAt path).map
              DomNode.shallow = (document.nodeAt path).map DomNode.shallow)) := by
  constructor
  · intro habsent
    have hnone : getElementById document elementId = none := by
      cases hg : getElementById document elementId with
      | none => rfl
      | some found =>
        obtain ⟨t, a, k, hn, hid⟩ := findById_sound elementId found document hg
        exact absurd hid (habsent found t a k hn)
    simp [showLoader, showError, hnone]
  constructor
  · rfl
  · rintro ⟨path, tag, attributes, children, hn, hid⟩
    cases hg : getElementById document elementId with
    | none => exact absurd hg (findById_complete elementId path document tag attributes children hn hid)
    | some target =>
      obtain ⟨t, a, k, hnt, hidt⟩ := findById_sound elementId target document hg
      refine ⟨target, t, a, k, rfl, hnt, hidt, ?_, ?_, ?_, ?_, ?_, ?_⟩
      · simp only [showLoader, hg, Option.getD_some]
        exact setInnerHTML_target parseFragment _ target document t a k hnt
      · simp only [showError, hg]
        exact setInnerHTML_target parseFragment _ target document t a k hnt
      · exact ⟨loaderMarkupHead.data, loaderMarkupTail.data, by simp [String.data_append]⟩
      · exact ⟨errorMarkupHead.data, errorMarkupTail.data, by simp [String.data_append]⟩
      · intro q h1 h2
        simp only [showLoader, showError, hg, Option.getD_some]
        exact ⟨setInnerHTML_elsewhere parseFragment _ target document q h1 h2,
          setInnerHTML_elsewhere parseFragment _ target document q h1 h2⟩
      · intro q h1
        simp only [showLoader, showError, hg, Option.getD_some]
        exact ⟨setInnerHTML_ancestors parseFragment _ target document q h1,
          setInnerHTML_ancestors parseFragment _ target document q h1⟩

/-- A page whose body holds a box with ID `box`: `showError` on `box`
replaces the content of the box and keeps its sibling, and `showLoader` on an
ID no element has returns the page as it was. -/
theorem showLoader_showError_frame_witness :
    showLoader (fun _ markup => [.text markup])
      (.element "body" [] [.element "div" [("id", "box")] [.text "old"], .text "tail"])
      "missing" (some "wait") =
      .element "body" [] [.element "div" [("id", "box")] [.text "old"], .text "tail"] ∧
    showError (fun _ markup => [.text markup])
      (.element "body" [] [.element "div" [("id", "box")] [.text "old"], .text "tail"])
      "box" "<b>oops</b>" =
      .element "body" []
        [.element "div" [("id", "box")]
          [.text (errorMarkupHead ++ "<b>oops</b>" ++ errorMarkupTail)], .text "tail"] :=
  ⟨((showLoader_showError_frame (fun _ markup => [.text markup])
      (.element "body" [] [.element "div" [("id", "box")] [.text "old"], .text "tail"])
      "missing" "wait").1 (by
        intro path tag attributes children h
        match path, h with
        | [], h =>
          simp only [DomNode.nodeAt, Option.some.injEq, DomNode.element.injEq] at h
          obtain ⟨_, ha, _⟩ := h
          subst ha
          decide
        | [0], h =>
          simp only [DomNode.nodeAt, List.getElem?_cons_zero, Option.some.injEq,
            DomNode.element.injEq] at h
          obtain ⟨_, ha, _⟩ := h
          subst ha
          decide
        | 0 :: 0 :: rest, h => cases rest <;> simp [DomNode.nodeAt] at h
        | 0 :: (j + 1) :: rest, h => simp [DomNode.nodeAt] at h
        | 1 :: rest, h => cases rest <;> simp [DomNode.nodeAt] at h
        | (i + 2) :: rest, h => simp [DomNode.nodeAt] at h)).1,
    by simp [showError, getElementById, findById, findInList, elementIdOf, setInnerHTML,
      List.lookup]⟩

/-! ## Formatting: contracts -/

/-- C7: `formatDate` returns the empty string, without calling the browser,
for every falsy date (among them `null`, `undefined`, the empty string, both
zeros, `NaN` and `false`) and every format; `formatNumber` returns the empty
string for `null` and for `undefined`, for every `decimals`, and makes no call
to the locale formatter. -/
theorem missing_input_yields_empty (dateParse : String → JSNumber)
    (invoke : JSValue → String → List JSValue → Except Thrown JSValue)
    (format decimals : JSValue) :
    (∀ date, toBoolean date = false →
      formatDate dateParse invoke date format = ⟨.ok (.string ""), []⟩) ∧
    formatDate dateParse invoke .null format = ⟨.ok (.string ""), []⟩ ∧
    formatDate dateParse invoke .undefined format = ⟨.ok (.string ""), []⟩ ∧
    formatDate dateParse invoke (.string "") format = ⟨.ok (.string ""), []⟩ ∧
    formatDate dateParse invoke (.number (.finite false 0 0)) format =
      ⟨.ok (.string ""), []⟩ ∧
    formatDate dateParse invoke (.number (.finite true 0 0)) format =
      ⟨.ok (.string ""), []⟩ ∧
    formatDate dateParse invoke (.number .nan) format = ⟨.ok (.string ""), []⟩ ∧
    formatDate dateParse invoke (.bool false) format = ⟨.ok (.string ""), []⟩ ∧
    formatNumber invoke .null decimals = ⟨.ok (.string ""), []⟩ ∧
    formatNumber invoke .undefined decimals = ⟨.ok (.string ""), []⟩ := by
  have key : ∀ date, toBoolean date = false →
      formatDate dateParse invoke date format = ⟨.ok (.string ""), []⟩ := by
    intro date h
    simp [formatDate, h]
  exact ⟨key, key _ rfl, key _ rfl, key _ rfl, key _ rfl, key _ rfl, key _ rfl, key _ rfl,
    rfl, rfl⟩

/-! ## Lemmas on the number rendering -/

theorem digitChar_ne_dot (n : Nat) : Nat.digitChar (n % 10) ≠ '.' := by
  have h : n % 10 < 10 := Nat.mod_lt _ (by decide)
  generalize n % 10 = d at h
  interval_cases d <;> decide

theorem not_mem_fixedDigitsRev (width : Nat) : ∀ n, '.' ∉ fixedDigitsRev width n := by
  induction width with
  | zero => intro n; simp [fixedDigitsRev]
  | succ w ih =>
    intro n
    simp only [fixedDigitsRev, List.mem_cons, not_or]
    exact ⟨fun h => digitChar_ne_dot _ h.symm, ih _⟩

theorem length_fixedDigitsRev (width : Nat) : ∀ n, (fixedDigitsRev width n).length = width := by
  induction width with
  | zero => intro n; rfl
  | succ w ih => intro n; simp [fixedDigitsRev, ih]

theorem not_mem_digitsRev (fuel : Nat) : ∀ n, '.' ∉ digitsRev fuel n := by
  induction fuel with
  | zero => intro n; simp [digitsRev]
  | succ f ih =>
    intro n
    simp only [digitsRev, List.mem_cons, not_or]
    refine ⟨fun h => digitChar_ne_dot _ h.symm, ?_⟩
    split
    · simp
    · exact ih _

theorem not_mem_groupThousands :
    ∀ (fuel : Nat) (digits : List Char), digits.length ≤ fuel → '.' ∉ digits →
      '.' ∉ groupThousands digits := by
  intro fuel
  induction fuel with
  | zero =>
    intro digits hlen h
    have : digits = [] := List.length_eq_zero.1 (Nat.le_zero.1 hlen)
    subst this
    simp [groupThousands]
  | succ f ih =>
    intro digits hlen h
    match digits, hlen, h with
    | [], _, _ => simp [groupThousands]
    | [a], _, h => simpa [groupThousands] using h
    | [a, b], _, h => simpa [groupThousands] using h
    | [a, b, c], _, h => simpa [groupThousands] using h
    | a :: b :: c :: d :: rest, hlen, h =>
      simp only [groupThousands, List.mem_cons, not_or] at h ⊢
      obtain ⟨ha, hb, hc, hd, hrest⟩ := h
      refine ⟨ha, hb, hc, by decide, ?_⟩
      apply ih
      · simp only [List.length_cons] at hlen ⊢; omega
      · simp only [List.mem_cons, not_or]; exact ⟨hd, hrest⟩

theorem takeWhile_ne_dot_append (digits rest : List Char) (h : '.' ∉ digits) :
    (digits ++ '.' :: rest).takeWhile (fun c => c != '.') = digits := by
  induction digits with
  | nil => simp [List.takeWhile]
  | cons a tail ih =>
    simp only [List.mem_cons, not_or] at h
    have ha : (a != '.') = true := by
      simp only [bne_iff_ne, ne_eq]
      exact fun e => h.1 e.symm
    rw [List.cons_append, List.takeWhile_cons]
    simp only [ha, if_true]
    rw [ih h.2]

theorem fractionDigitOption_ofNat (k : Nat) (hk : k ≤ 100) :
    fractionDigitOption (JSNumber.ofNat k) = .ok k := by
  have hle : k * 2 ^ 0 ≤ 100 := by simpa using hk
  show (if (false && k != 0) = true then Except.error (Thrown.host "RangeError")
    else if k * 2 ^ 0 ≤ 100 then Except.ok (k * 2 ^ 0)
    else Except.error (Thrown.host "RangeError")) = Except.ok k
  rw [if_neg (by simp), if_pos hle]
  simp

/-- The rendering of a finite number with `k` as minimum and maximum has
exactly `k` characters after its only `.`, and no `.` when `k = 0`. -/
theorem fractionDigits_renderFinite (negative : Bool) (significand : Nat) (exponent : Int)
    (k : Nat) : fractionDigits (renderFinite negative significand exponent k k) = k := by
  have hint : ∀ m : Nat, '.' ∉ groupThousands (digitsRev (m + 1) m) := fun m =>
    not_mem_groupThousands _ _ (Nat.le_refl _) (not_mem_digitsRev _ _)
  have hsign : '.' ∉ (if negative then ['-'] else []).reverse := by
    cases negative <;> decide
  cases k with
  | zero =>
    simp only [fractionDigits, renderFinite, fixedDigitsRev, dropZeros, List.isEmpty,
      if_true, List.reverse_append, List.reverse_reverse]
    rw [if_neg]
    simp only [List.mem_append, not_or]
    exact ⟨hint _, hsign⟩
  | succ k =>
    have hdrop : ∀ digits, dropZeros (k + 1 - (k + 1)) digits = digits := by
      intro digits
      rw [Nat.sub_self]
      cases digits <;> simp [dropZeros]
    have hne : ∀ m, (fixedDigitsRev (k + 1) m).isEmpty = false := by
      intro m; simp [fixedDigitsRev]
    simp only [fractionDigits, renderFinite, hdrop, hne, List.reverse_append,
      List.reverse_reverse, List.append_assoc, List.cons_append, Bool.false_eq_true,
      if_false]
    rw [if_pos (by simp), takeWhile_ne_dot_append _ _ (not_mem_fixedDigitsRev _ _),
      length_fixedDigitsRev]

/-- C8, as the code and the formatter have it: for every Number and every
`decimals`, `formatNumber` returns or throws what `toLocaleString` does in
`zh-CN` when minimum and maximum fraction digits are both `decimals` (`0` when
omitted), and calls nothing else; for every finite number and every whole
`decimals` from 0 to 100 the formatter returns the rendering with these
bounds, and it has exactly `decimals` digits after the decimal point; a
`decimals` the formatter rejects makes `formatNumber` throw its error. -/
theorem formatNumber_renders
    (invoke : JSValue → String → List JSValue → Except Thrown JSValue) (n : JSNumber) :
    (∀ decimals : JSValue, decimals ≠ .undefined →
      formatNumber invoke (.number n) decimals =
        ⟨invoke (.number n) "toLocaleString"
            [.string "zh-CN", fractionDigitOptions decimals decimals],
          [⟨.number n, "toLocaleString",
            [.string "zh-CN", fractionDigitOptions decimals decimals]⟩]⟩) ∧
    (formatNumber invoke (.number n) .undefined =
      formatNumber invoke (.number n) (.number (JSNumber.ofNat 0))) ∧
    (∀ k : Nat, n.isFinite = true → k ≤ 100 →
      (formatNumber referenceInvoke (.number n) (.number (JSNumber.ofNat k))).value =
        .ok (.string (renderNumber n k k)) ∧
      fractionDigits (renderNumber n k k) = k) ∧
    (∀ (decimals : JSNumber) (thrown : Thrown),
      fractionDigitOption decimals = .error thrown →
      (formatNumber referenceInvoke (.number n) (.number decimals)).value =
        .error thrown) := by
  refine ⟨?_, rfl, ?_, ?_⟩
  · intro decimals hd
    cases decimals <;> first | exact absurd rfl hd | rfl
  rotate_left
  · intro decimals thrown hthrown
    simp [formatNumber, fractionDigitOptions, referenceInvoke, getOwn, List.lookup,
      numberToLocaleString, hthrown]
  · intro k hfinite hk
    cases n with
    | nan => simp [JSNumber.isFinite] at hfinite
    | infinity negative => simp [JSNumber.isFinite] at hfinite
    | finite negative significand exponent =>
      refine ⟨?_, fractionDigits_renderFinite negative significand exponent k⟩
      simp [formatNumber, fractionDigitOptions, referenceInvoke, getOwn, List.lookup,
        numberToLocaleString, fractionDigitOption_ofNat k hk, renderNumber]

/-- In `zh-CN`, `formatNumber(1234.5, 2)` is `1,234.50`, with two fraction
digits. -/
theorem formatNumber_renders_witness :
    (formatNumber referenceInvoke (.number (.finite false 2469 (-1)))
        (.number (JSNumber.ofNat 2))).value = .ok (.string "1,234.50") ∧
    fractionDigits "1,234.50" = 2 :=
  ⟨((formatNumber_renders referenceInvoke (.finite false 2469 (-1))).2.2.1 2 rfl
      (by decide)).1,
    by decide⟩

/-- With `NaN` the rendering is `NaN`, without fraction digits although two
were asked for; with `decimals` equal to -1, and to 101, the formatter throws
a `RangeError` and no string is returned. -/
theorem formatNumber_digits_counterexample :
    (formatNumber referenceInvoke (.number .nan) (.number (JSNumber.ofNat 2))).value =
      .ok (.string "NaN") ∧
    fractionDigits "NaN" = 0 ∧
    (formatNumber referenceInvoke (.number (.finite false 2469 (-1)))
        (.number (.finite true 1 0))).value = .error (.host "RangeError") ∧
    (formatNumber referenceInvoke (.number (.finite false 2469 (-1)))
        (.number (JSNumber.ofNat 101))).value = .error (.host "RangeError") :=
  ⟨rfl, by decide, rfl, rfl⟩

/-! ## URL parameters: contract -/

theorem urlParamsGet_none (pairs : List (String × String)) (name : String)
    (h : name ∉ pairs.map Prod.fst) : urlParamsGet pairs name = none := by
  unfold urlParamsGet
  have hfind : pairs.find? (fun pair => pair.1 == name) = none := by
    rw [List.find?_eq_none]
    intro pair hp heq
    simp only [beq_iff_eq] at heq
    exact h (List.mem_map.2 ⟨pair, hp, heq⟩)
  rw [hfind]

theorem urlParamsGet_some (pairs : List (String × String)) (name : String)
    (h : name ∈ pairs.map Prod.fst) :
    ∃ value before after, urlParamsGet pairs name = some value ∧
      pairs = before ++ (name, value) :: after ∧ name ∉ before.map Prod.fst := by
  induction pairs with
  | nil => simp at h
  | cons pair rest ih =>
    by_cases hp : pair.1 = name
    · refine ⟨pair.2, [], rest, ?_, ?_, by simp⟩
      · simp [urlParamsGet, List.find?, hp]
      · simp [← hp]
    · have hrest : name ∈ rest.map Prod.fst := by
        simp only [List.map_cons, List.mem_cons] at h
        rcases h with h | h
        · exact absurd h.symm hp
        · exact h
      obtain ⟨value, before, after, hget, hsplit, hnot⟩ := ih hrest
      refine ⟨value, pair :: before, after, ?_, ?_, ?_⟩
      · have hb : (pair.1 == name) = false := by simpa using hp
        simpa [urlParamsGet, List.find?, hb] using hget
      · simp [hsplit]
      · simp only [List.map_cons, List.mem_cons, not_or]
        exact ⟨fun heq => hp heq.symm, hnot⟩

/-- C9: `getUrlParam` leaves the page location as it was; its result is
`null` when the query string has no parameter of the given name, and
otherwise the value of the first parameter of that name. -/
theorem getUrlParam_reads (urlSearchParams : String → List (String × String))
    (location : Location) (name : String) :
    (getUrlParam urlSearchParams location name).2 = location ∧
    (name ∉ (urlSearchParams location.search).map Prod.fst →
      (getUrlParam urlSearchParams location name).1 = none) ∧
    (name ∈ (urlSearchParams location.search).map Prod.fst →
      ∃ value before after,
        (getUrlParam urlSearchParams location name).1 = some value ∧
        urlSearchParams location.search = before ++ (name, value) :: after ∧
        name ∉ before.map Prod.fst) :=
  ⟨rfl, urlParamsGet_none _ name, urlParamsGet_some _ name⟩

/-- On the query `?x=5&y=6`, the parameter `x` is `5` and `z` is absent. -/
theorem getUrlParam_reads_witness :
    (getUrlParam plainSearchParams ⟨"/courses", "?x=5&y=6"⟩ "x").1 = some "5" ∧
    (getUrlParam plainSearchParams ⟨"/courses", "?x=5&y=6"⟩ "z").1 = none ∧
    (getUrlParam plainSearchParams ⟨"/courses", "?x=5&y=6"⟩ "x").2 =
      ⟨"/courses", "?x=5&y=6"⟩ :=
  ⟨by decide,
    (getUrlParam_reads plainSearchParams ⟨"/courses", "?x=5&y=6"⟩ "z").2.1 (by decide),
    (getUrlParam_reads plainSearchParams ⟨"/courses", "?x=5&y=6"⟩ "x").1⟩

/-! ## Lemmas on object spread -/

theorem getOwn_setOwn (props : Props) (key : String) (value : JSValue) (k : String) :
    getOwn (setOwn props key value) k = if k = key then some value else getOwn props k := by
  induction props with
  | nil =>
    by_cases hk : k = key
    · simp [setOwn, getOwn, List.lookup, hk]
    · have hb : (k == key) = false := by simpa using hk
      simp [setOwn, getOwn, List.lookup, hk, hb]
  | cons head rest ih =>
    obtain ⟨a, b⟩ := head
    simp only [getOwn] at ih
    by_cases ha : a = key
    · subst ha
      by_cases hk : k = a
      · simp [setOwn, getOwn, List.lookup, hk]
      · have hb : (k == a) = false := by simpa using hk
        simp [setOwn, getOwn, List.lookup, hk, hb]
    · by_cases hk : k = a
      · subst hk
        simp [setOwn, getOwn, List.lookup, ha]
      · have hb : (k == a) = false := by simpa using hk
        simp only [setOwn, if_neg ha, getOwn, List.lookup, hb]
        exact ih

theorem getOwn_none_of_not_mem (props : Props) (k : String)
    (h : k ∉ props.map Prod.fst) : getOwn props k = none := by
  induction props with
  | nil => rfl
  | cons head rest ih =>
    obtain ⟨a, b⟩ := head
    simp only [List.map_cons, List.mem_cons, not_or] at h
    have hb : (k == a) = false := by simpa using h.1
    simp only [getOwn, List.lookup, hb]
    exact ih h.2

/-- A property of the spread is the property of the source when the source
has it, and the property of the target otherwise. -/
theorem getOwn_spread (source : Props) :
    ∀ (target : Props) (k : String), (source.map Prod.fst).Nodup →
      getOwn (spread target source) k =
        match getOwn source k with
        | some value => some value
        | none => getOwn target k := by
  induction source with
  | nil => intro target k _; rfl
  | cons head rest ih =>
    intro target k hnodup
    obtain ⟨a, b⟩ := head
    simp only [List.map_cons, List.nodup_cons] at hnodup
    have hstep : spread target ((a, b) :: rest) = spread (setOwn target a b) rest := rfl
    rw [hstep, ih (setOwn target a b) k hnodup.2, getOwn_setOwn]
    by_cases hk : k = a
    · subst hk
      have hrest : getOwn rest k = none := getOwn_none_of_not_mem rest k hnodup.1
      rw [hrest]
      simp [getOwn, List.lookup]
    · have hb : (k == a) = false := by simpa using hk
      simp only [if_neg hk]
      simp only [getOwn, List.lookup, hb]

theorem getOwn_requestOptions (options : Props) (k : String)
    (hkeys : (options.map Prod.fst).Nodup) :
    getOwn (requestOptions options) k =
      match getOwn options k with
      | some value => some value
      | none => getOwn defaultOptions k := by
  unfold requestOptions
  rw [getOwn_spread options _ k hkeys]
  rfl

/-! ## API requests: contracts -/

/-- C6: `apiRequest` calls `fetch` first, with the URL and with the shallow
merge of the caller's options over the defaults: every property the caller
supplies has the caller's value; caller-supplied `headers` are passed exactly
as they are, without the default content type; without them the headers are
exactly the default JSON content type; and nothing else is added. -/
theorem apiRequest_requestOptions (fetch : String → Props → Except Thrown Response)
    (hostToString : JSValue → Except Thrown String) (url : String) (options : Props)
    (hkeys : (options.map Prod.fst).Nodup) :
    (∃ later, (apiRequest fetch hostToString url options).1 =
      Effect.fetch url (requestOptions options) :: later ∧
      ∀ effect ∈ later, ∃ label error, effect = Effect.consoleError label error) ∧
    (∀ key value, getOwn options key = some value →
      getOwn (requestOptions options) key = some value) ∧
    (∀ headers, getOwn options "headers" = some headers →
      getOwn (requestOptions options) "headers" = some headers) ∧
    (getOwn options "headers" = none →
      getOwn (requestOptions options) "headers" =
        some (.object [("Content-Type", .string "application/json")])) ∧
    (∀ key, key ≠ "headers" → getOwn options key = none →
      getOwn (requestOptions options) key = none) := by
  refine ⟨?_, ?_, ?_, ?_, ?_⟩
  · simp only [apiRequest]
    split
    · exact ⟨[], rfl, by simp⟩
    · exact ⟨[_], rfl, by simp⟩
  · intro key value h
    rw [getOwn_requestOptions options key hkeys, h]
  · intro headers h
    rw [getOwn_requestOptions options "headers" hkeys, h]
  · intro h
    rw [getOwn_requestOptions options "headers" hkeys, h]
    rfl
  · intro key hkey h
    rw [getOwn_requestOptions options key hkeys, h]
    have hb : (key == "headers") = false := by simpa using hkey
    simp [defaultOptions, getOwn, List.lookup, hb]

/-- A POST request with its own headers: they replace the default ones. -/
theorem apiRequest_requestOptions_witness :
    getOwn (requestOptions
      [("method", .string "POST"), ("headers", .object [("X-Token", .string "t")])])
      "headers" = some (.object [("X-Token", .string "t")]) ∧
    getOwn (requestOptions [("method", .string "POST")]) "headers" =
      some (.object [("Content-Type", .string "application/json")]) :=
  ⟨(apiRequest_requestOptions (fun _ _ => .error (.host "offline")) (fun _ => .ok "")
      "/api" [("method", .string "POST"), ("headers", .object [("X-Token", .string "t")])]
      (by decide)).2.2.1 _ rfl,
    (apiRequest_requestOptions (fun _ _ => .error (.host "offline")) (fun _ => .ok "")
      "/api" [("method", .string "POST")] (by decide)).2.2.2.1 rfl⟩

/-- What `apiRequest` does with a response whose status is not a success,
given the message read from the error data. -/
theorem apiRequest_of_message (fetch : String → Props → Except Thrown Response)
    (hostToString : JSValue → Except Thrown String) (url : String) (options : Props)
    (response : Response) (errorData message : JSValue) (error : Thrown)
    (hfetch : fetch url (requestOptions options) = .ok response)
    (hstatus : response.ok = false)
    (hdata : (match response.json with
      | .ok data => data
      | .error _ => JSValue.object []) = errorData)
    (hmessage : readMessage errorData = .ok message)
    (herror : newError hostToString (if toBoolean message then message
      else JSValue.string ("请求失败: " ++ toString response.status)) = .ok error) :
    apiRequest fetch hostToString url options =
      ([.fetch url (requestOptions options), .consoleError "API请求出错:" error],
        .error error) := by
  simp only [apiRequest, hfetch, hstatus, hdata, hmessage, herror]
  rfl

/-- C4, as the code has it: when the status is not a success and the body
parses to an object whose `message` is a non-empty string, `apiRequest`
rejects with an error whose message is exactly that string.  The generic
message with the status code is used when parsing the body fails, and also
when the body parses to a value other than `null` that has no `message`
property or a falsy one.  (`response.json()` never resolves to `undefined`,
which the value type also holds.) -/
theorem apiRequest_error_message (fetch : String → Props → Except Thrown Response)
    (hostToString : JSValue → Except Thrown String) (url : String) (options : Props)
    (response : Response)
    (hfetch : fetch url (requestOptions options) = .ok response)
    (hstatus : response.ok = false) :
    (∀ props text, response.json = .ok (.object props) →
      getOwn props "message" = some (.string text) → text ≠ "" →
      (apiRequest fetch hostToString url options).2 = .error (.error text)) ∧
    (∀ thrown, response.json = .error thrown →
      (apiRequest fetch hostToString url options).2 =
        .error (.error ("请求失败: " ++ toString response.status))) ∧
    (∀ data, response.json = .ok data → data ≠ .null → data ≠ .undefined →
      (∀ props message, data = .object props → getOwn props "message" = some message →
        toBoolean message = false) →
      (apiRequest fetch hostToString url options).2 =
        .error (.error ("请求失败: " ++ toString response.status))) := by
  refine ⟨?_, ?_, ?_⟩
  · intro props text hjson hget htext
    rw [apiRequest_of_message fetch hostToString url options response (.object props)
      (.string text) (.error text) hfetch hstatus (by rw [hjson])
      (by simp [readMessage, hget])
      (by simp [toBoolean, htext, newError])]
  · intro thrown hjson
    rw [apiRequest_of_message fetch hostToString url options response (.object [])
      .undefined (.error ("请求失败: " ++ toString response.status)) hfetch hstatus
      (by rw [hjson]) rfl rfl]
  · intro data hjson hnull hundefined hfalsy
    have hread : ∃ message, readMessage data = .ok message ∧ toBoolean message = false := by
      cases data with
      | undefined => exact absurd rfl hundefined
      | null => exact absurd rfl hnull
      | object props =>
        cases hget : getOwn props "message" with
        | none => exact ⟨.undefined, by simp [readMessage, hget], rfl⟩
        | some message =>
          exact ⟨message, by simp [readMessage, hget], hfalsy props message rfl hget⟩
      | bool b => exact ⟨.undefined, rfl, rfl⟩
      | number n => exact ⟨.undefined, rfl, rfl⟩
      | string text => exact ⟨.undefined, rfl, rfl⟩
      | array items => exact ⟨.undefined, rfl, rfl⟩
      | date timeValue => exact ⟨.undefined, rfl, rfl⟩
    obtain ⟨message, hmessage, hfalse⟩ := hread
    rw [apiRequest_of_message fetch hostToString url options response data
      message (.error ("请求失败: " ++ toString response.status)) hfetch hstatus
      (by rw [hjson]) hmessage (by simp [hfalse, newError])]

/-- A 404 whose body is an object with the message `not found`. -/
theorem apiRequest_error_message_witness :
    (apiRequest
      (fun _ _ => .ok ⟨404, .ok (.object [("message", .string "not found")])⟩)
      (fun _ => .error (.host "TypeError")) "/api" []).2 = .error (.error "not found") :=
  (apiRequest_error_message
    (fun _ _ => .ok ⟨404, .ok (.object [("message", .string "not found")])⟩)
    (fun _ => .error (.host "TypeError")) "/api" []
    ⟨404, .ok (.object [("message", .string "not found")])⟩ rfl rfl).1
    [("message", .string "not found")] "not found" rfl rfl (by decide)

/-- A 404 whose body parses to an object with an empty `message`, and one
whose body parses to an object without `message`: both reject with the generic
message, which is not the `message` field although the body was parsed. -/
theorem apiRequest_falsy_message_counterexample :
    (apiRequest (fun _ _ => .ok ⟨404, .ok (.object [("message", .string "")])⟩)
      (fun _ => .error (.host "TypeError")) "/api" []).2 =
        .error (.error "请求失败: 404") ∧
    ¬ ((apiRequest (fun _ _ => .ok ⟨404, .ok (.object [("message", .string "")])⟩)
      (fun _ => .error (.host "TypeError")) "/api" []).2 = .error (.error "")) ∧
    (apiRequest (fun _ _ => .ok ⟨404, .ok (.object [("code", .string "E1")])⟩)
      (fun _ => .error (.host "TypeError")) "/api" []).2 =
        .error (.error "请求失败: 404") := by
  refine ⟨rfl, ?_, rfl⟩
  intro h
  have h2 : (Except.error (Thrown.error "请求失败: 404") : Except Thrown JSValue) =
      .error (.error "") := h
  simp at h2

/-- C5: when the status is not a success and the body cannot be parsed,
`apiRequest` rejects with an error whose message contains the decimal digits
of the status code, after logging it; when the status is a success and the
body parses, it resolves to the parsed body. -/
theorem apiRequest_settles (fetch : String → Props → Except Thrown Response)
    (hostToString : JSValue → Except Thrown String) (url : String) (options : Props)
    (response : Response)
    (hfetch : fetch url (requestOptions options) = .ok response) :
    (response.ok = false → ∀ thrown, response.json = .error thrown →
      ∃ message,
        apiRequest fetch hostToString url options =
          ([.fetch url (requestOptions options),
              .consoleError "API请求出错:" (.error message)],
            .error (.error message)) ∧
        Nat.toDigits 10 response.status <:+: message.data) ∧
    (response.ok = true → ∀ data, response.json = .ok data →
      apiRequest fetch hostToString url options =
        ([.fetch url (requestOptions options)], .ok data)) := by
  constructor
  · intro hstatus thrown hjson
    refine ⟨"请求失败: " ++ toString response.status, ?_, ?_⟩
    · exact apiRequest_of_message fetch hostToString url options response (.object [])
        .undefined _ hfetch hstatus (by rw [hjson]) rfl rfl
    · exact ⟨"请求失败: ".data, [], by simp [String.data_append, toString, Nat.repr, List.asString]⟩
  · intro hstatus data hjson
    simp [apiRequest, hfetch, hstatus, hjson]

/-- A 500 with an unparseable body, and a 200 whose body parses. -/
theorem apiRequest_settles_witness :
    (apiRequest (fun _ _ => .ok ⟨500, .error (.host "SyntaxError")⟩)
      (fun _ => .error (.host "TypeError")) "/api" []).2 =
        .error (.error "请求失败: 500") ∧
    apiRequest
      (fun _ _ => .ok ⟨200, .ok (.object [("a", .number (JSNumber.ofNat 1))])⟩)
      (fun _ => .error (.host "TypeError")) "/api" [] =
        ([.fetch "/api" (requestOptions [])],
          .ok (.object [("a", .number (JSNumber.ofNat 1))])) :=
  ⟨rfl,
    (apiRequest_settles
      (fun _ _ => .ok ⟨200, .ok (.object [("a", .number (JSNumber.ofNat 1))])⟩)
      (fun _ => .error (.host "TypeError")) "/api" []
      ⟨200, .ok (.object [("a", .number (JSNumber.ofNat 1))])⟩ rfl).2 rfl _ rfl⟩

end MainJs
